import Mathlib

/-!
Verification embedding of the restai project-orchestration API layer
(`app/main.py`, `app/models.py`): project lifecycle, ingestion, source
enumeration, deletion, and question answering.  Pure functions mirror the
Python handlers; external collaborators (loaders, keyword extractor, LLM)
are explicit oracle parameters; the mutable process state (metadata store,
per-project chroma index, upload directory) is threaded explicitly.
-/

namespace Restai

/-! ## Base64 (mirrors Python `base64.b64decode(... ).decode('utf-8')`) -/

/-- Value of a standard base64 alphabet character, as in Python's
`base64.b64decode` alphabet. -/
def b64Val (c : Char) : Option Nat :=
  if 'A' ≤ c ∧ c ≤ 'Z' then some (c.toNat - 65)
  else if 'a' ≤ c ∧ c ≤ 'z' then some (c.toNat - 97 + 26)
  else if '0' ≤ c ∧ c ≤ '9' then some (c.toNat - 48 + 52)
  else if c = '+' then some 62
  else if c = '/' then some 63
  else none

/-- Decode groups of four base64 characters into bytes; `=` is accepted only
as final padding (Python raises `binascii.Error` otherwise, modelled as
`none`). -/
def b64Groups : List Char → Option (List Nat)
  | [] => some []
  | a :: b :: c :: d :: rest =>
    match b64Val a, b64Val b with
    | some va, some vb =>
      if c = '=' then
        if d = '=' ∧ rest = [] then some [va * 4 + vb / 16] else none
      else
        match b64Val c with
        | some vc =>
          if d = '=' then
            if rest = [] then some [va * 4 + vb / 16, (vb % 16) * 16 + vc / 4]
            else none
          else
            match b64Val d with
            | some vd =>
              (b64Groups rest).map
                (fun tl =>
                  (va * 4 + vb / 16) :: ((vb % 16) * 16 + vc / 4) ::
                    ((vc % 4) * 64 + vd) :: tl)
            | none => none
        | none => none
    | _, _ => none
  | _ => none

/-- Python `base64.b64decode` with default `validate=False`: characters
outside the alphabet (and `=`) are discarded, then the rest must split into
groups of four. -/
def b64decode (s : String) : Option (List Nat) :=
  let cs := s.toList.filter (fun c => (b64Val c).isSome || c = '=')
  if cs.length % 4 = 0 then b64Groups cs else none

/-- Strict UTF-8 decoding of a byte list (mirrors `bytes.decode('utf-8')`,
`none` for invalid sequences). -/
def utf8D : List Nat → Option (List Char)
  | [] => some []
  | b :: rest =>
    if b < 0x80 then (utf8D rest).map (fun tl => Char.ofNat b :: tl)
    else if 0xC2 ≤ b ∧ b ≤ 0xDF then
      match rest with
      | b2 :: rest2 =>
        if 0x80 ≤ b2 ∧ b2 ≤ 0xBF then
          (utf8D rest2).map (fun tl => Char.ofNat ((b - 0xC0) * 64 + (b2 - 0x80)) :: tl)
        else none
      | [] => none
    else if 0xE0 ≤ b ∧ b ≤ 0xEF then
      match rest with
      | b2 :: b3 :: rest3 =>
        if (0x80 ≤ b2 ∧ b2 ≤ 0xBF) ∧ (0x80 ≤ b3 ∧ b3 ≤ 0xBF)
            ∧ (b = 0xE0 → 0xA0 ≤ b2) ∧ (b = 0xED → b2 ≤ 0x9F) then
          (utf8D rest3).map
            (fun tl =>
              Char.ofNat ((b - 0xE0) * 4096 + (b2 - 0x80) * 64 + (b3 - 0x80)) :: tl)
        else none
      | _ => none
    else if 0xF0 ≤ b ∧ b ≤ 0xF4 then
      match rest with
      | b2 :: b3 :: b4 :: rest4 =>
        if (0x80 ≤ b2 ∧ b2 ≤ 0xBF) ∧ (0x80 ≤ b3 ∧ b3 ≤ 0xBF) ∧ (0x80 ≤ b4 ∧ b4 ≤ 0xBF)
            ∧ (b = 0xF0 → 0x90 ≤ b2) ∧ (b = 0xF4 → b2 ≤ 0x8F) then
          (utf8D rest4).map
            (fun tl =>
              Char.ofNat ((b - 0xF0) * 262144 + (b2 - 0x80) * 4096
                + (b3 - 0x80) * 64 + (b4 - 0x80)) :: tl)
        else none
      | _ => none
    else none

/-- Composition `base64.b64decode(p).decode('utf-8')`, as used by `delete_url` and
`delete_file` in `app/main.py`. -/
def b64decodeStr (s : String) : Option String :=
  match b64decode s with
  | none => none
  | some bytes => (utf8D bytes).map (fun cs => String.mk cs)

/-! ## Data model (from `app/models.py`, the authoritative model file) -/

/-- Model `ProjectModel` (app/models.py lines 26-30): fields `name`, `embeddings`,
`llm`, `system` — and no others. -/
structure ProjectModel where
  name : String
  embeddings : Option String
  llm : Option String
  system : Option String
deriving Repr, DecidableEq

/-- Model `QuestionModel` (app/models.py lines 15-18). -/
structure QuestionModel where
  question : String
  llm : Option String
  system : Option String
deriving Repr, DecidableEq

/-- pydantic attribute access on a `ProjectModel` instance: only the declared
fields resolve; any other attribute — e.g. `sandboxed`, which
`get_project` (app/main.py line 230) reads — raises `AttributeError`,
modelled as `none`.  Field values are rendered uniformly as `Option String`
(`name` is always present). -/
def ProjectModel.getattr (m : ProjectModel) : String → Option (Option String)
  | "name" => some (some m.name)
  | "embeddings" => some m.embeddings
  | "llm" => some m.llm
  | "system" => some m.system
  | _ => none

/-- One stored document chunk of a project's chroma collection: a
store-assigned id, the `source` metadata (absolute file path or literal URL),
the text content and the derived `keywords` metadata. -/
structure Chunk where
  id : Nat
  source : String
  content : String
  keywords : List String
deriving Repr, DecidableEq

/-- A project's vector index ("langchain" collection) as the list of its
stored chunks. -/
abbrev EmbIndex := List Chunk

/-- Query `collection.get(where={'source': src})`: the chunks whose `source`
metadata equals `src` exactly. -/
def getBySource (idx : EmbIndex) (src : String) : List Chunk :=
  idx.filter (fun c => c.source == src)

/-- The mutable process state the handlers touch: persisted project metadata
(relational store), the per-project indexes, user-project associations, and
the upload directory on disk, modelled as a flat list of
(project dir, file name) entries. -/
structure AppState where
  projects : List ProjectModel
  indexes : List (String × EmbIndex)
  userProjects : List (String × String)
  files : List (String × String)
deriving Repr, DecidableEq

def lookupIdx : List (String × EmbIndex) → String → EmbIndex
  | [], _ => []
  | e :: rest, p => if e.1 == p then e.2 else lookupIdx rest p

/-- The index of a given project (empty if none was materialized). -/
def getIndex (st : AppState) (pname : String) : EmbIndex :=
  lookupIdx st.indexes pname

def setEntry : List (String × EmbIndex) → String → EmbIndex → List (String × EmbIndex)
  | [], p, idx => [(p, idx)]
  | e :: rest, p, idx => if e.1 == p then (p, idx) :: rest else e :: setEntry rest p idx

/-- Replace (or materialize) the index of a given project. -/
def setIndex (st : AppState) (pname : String) (idx : EmbIndex) : AppState :=
  { st with indexes := setEntry st.indexes pname idx }

/-! ## Exceptions and the blanket 500 wrapper -/

/-- Python-level exceptions observed by the handlers: FastAPI
`HTTPException(status_code, detail)` and a plain `Exception(msg)`. -/
inductive Exc where
  | httpException (status : Nat) (detail : String)
  | exception (msg : String)
deriving Repr, DecidableEq

/-- Python `str(e)`: starlette renders an `HTTPException` as
`"<status>: <detail>"`; a plain exception renders as its message. -/
def Exc.pyStr : Exc → String
  | .httpException s d => toString s ++ ": " ++ d
  | .exception m => m

/-- The blanket handler every `try` body of `app/main.py` ends with:
`except Exception as e: raise HTTPException(status_code=500, detail=...)`
with detail `'\x7b"error": ' + str(e) + '\x7d'`.  `HTTPException` subclasses
`Exception`, so an `HTTPException` raised inside the `try` body is caught
and re-wrapped here as well. -/
def wrap500 (e : Exc) : Exc :=
  .httpException 500 ("\x7b\"error\": " ++ e.pyStr ++ "\x7d")

/-- Status code the caller observes for a handler outcome. -/
def respStatus {α : Type} : Except Exc α → Option Nat
  | .ok _ => none
  | .error (.httpException s _) => some s
  | .error (.exception _) => none

def isErr {α : Type} : Except Exc α → Bool
  | .error _ => true
  | .ok _ => false

/-- Function `os.path.join` for the absolute-base/relative-component uses in
`app/main.py`. -/
def pathJoin (a b : String) : String := a ++ "/" ++ b

/-! ## Brain operations (`app/brain.py` is not among the given sources) -/

/-- Modelled from the spec: `Brain.findProject` (missing `app/brain.py`)
looks up persisted Project metadata by name and returns the runtime, or
`None` when no such Project exists; it never raises for the not-found case
(spec §4.1).  `create_project` (app/main.py line 275-276) observes exactly
this `None`-on-absence contract. -/
def findProject (st : AppState) (name : String) : Option ProjectModel :=
  st.projects.find? (fun p => p.name == name)

/-- Modelled from the spec: `Brain.createProject` (missing `app/brain.py`)
persists the metadata and eagerly initializes an empty Project Index
(spec §4.1). -/
def brainCreateProject (st : AppState) (pm : ProjectModel) : AppState :=
  { st with
    projects := st.projects ++ [pm]
    indexes := setEntry st.indexes pm.name [] }

/-- Modelled from the spec: `Brain.deleteProject` (missing `app/brain.py`)
removes the persisted metadata, the Project Index and the on-disk uploads,
returning `False` when the Project does not exist (spec §4.1). -/
def brainDeleteProject (st : AppState) (name : String) : Bool × AppState :=
  match findProject st name with
  | none => (false, st)
  | some _ =>
    (true,
      { st with
        projects := st.projects.filter (fun p => !(p.name == name))
        indexes := st.indexes.filter (fun e => !(e.1 == name))
        files := st.files.filter (fun f => !(f.1 == name)) })

/-- Patch model `ProjectModelUpdate` is imported by `app/main.py` but absent from
`app/models.py`; modelled from the spec §4.1 `editProject` patch
(optional `embeddings`/`llm`/`system`; `name` may not change). -/
structure ProjectModelUpdate where
  embeddings : Option String
  llm : Option String
  system : Option String
deriving Repr, DecidableEq

/-- Modelled from the spec: `Brain.editProject` (missing `app/brain.py`)
applies the partial update and returns `False` when the Project does not
exist (spec §4.1). -/
def brainEditProject (st : AppState) (name : String) (patch : ProjectModelUpdate) :
    Bool × AppState :=
  match findProject st name with
  | none => (false, st)
  | some _ =>
    (true,
      { st with
        projects := st.projects.map (fun p =>
          if p.name == name then
            { p with
              embeddings := patch.embeddings.orElse (fun _ => p.embeddings)
              llm := patch.llm.orElse (fun _ => p.llm)
              system := patch.system.orElse (fun _ => p.system) }
          else p) })

/-! ## Ingestion pipeline pieces -/

/-- A langchain document inside the pipeline: page content plus `source`
and (after enrichment) `keywords` metadata. -/
structure PDoc where
  source : String
  content : String
  keywords : List String
deriving Repr, DecidableEq

/-- A fresh store-assigned id, strictly above every id present. -/
def freshId (idx : EmbIndex) : Nat :=
  idx.foldr (fun c m => max c.id m) 0 + 1

def upsertDocs : EmbIndex → Nat → List PDoc → EmbIndex × List Nat
  | idx, _, [] => (idx, [])
  | idx, n, d :: rest =>
    let r := upsertDocs (idx ++ [⟨n, d.source, d.content, d.keywords⟩]) (n + 1) rest
    (r.1, n :: r.2)

/-- Modelled from the spec: `IndexDocuments` (missing `app/tools.py`) embeds
and upserts the whole enriched batch into the Project Index and returns the
assigned chunk ids (spec §4.2 `upsert`, §4.3 step 5). -/
def IndexDocuments (idx : EmbIndex) (docs : List PDoc) : EmbIndex × List Nat :=
  upsertDocs idx (freshId idx) docs

/-- Outcomes of the external collaborators of one ingestion run: the loader
(`SeleniumURLLoader(...).load()` resp. `FindFileLoader(...)` + `.load()`,
network, file parsing and loader resolution included) and the keyword
extractor `ExtractKeywordsForMetadata` (missing `app/tools.py`; spec §4.3
steps 1, 3, 4). -/
structure IngestOracle where
  load : Except Exc (List PDoc)
  extract : List PDoc → Except Exc (List PDoc)

/-! ## Handlers (`app/main.py`) -/

/-- Handler `create_project` (app/main.py lines 272-288): rejects a duplicate name
with `HTTPException(403, ...Project already exists...)` before any mutation;
the blanket `except Exception` then re-wraps that rejection via `wrap500`.
On success it persists the project and adds the user-project association. -/
def create_project (st : AppState) (user : String) (pm : ProjectModel) :
    AppState × Except Exc String :=
  match findProject st pm.name with
  | some _ =>
    (st, .error (wrap500 (.httpException 403
      "\x7b\"error\": \"Project already exists\"\x7d")))
  | none =>
    let st1 := brainCreateProject st pm
    let st2 := { st1 with userProjects := st1.userProjects ++ [(user, pm.name)] }
    (st2, .ok pm.name)

/-- Handler `delete_project` (app/main.py lines 242-254): the not-found
`HTTPException(404, ...)` is raised inside the `try` body, so the blanket
handler re-wraps it via `wrap500`. -/
def delete_project (st : AppState) (name : String) : AppState × Except Exc String :=
  let r := brainDeleteProject st name
  if r.1 then (r.2, .ok name)
  else (r.2, .error (wrap500 (.httpException 404
    "\x7b\"error\": \"Project not found\"\x7d")))

/-- Handler `edit_project` (app/main.py lines 257-269): same shape as
`delete_project`, not-found 404 re-wrapped via `wrap500`. -/
def edit_project (st : AppState) (name : String) (patch : ProjectModelUpdate) :
    AppState × Except Exc String :=
  let r := brainEditProject st name patch
  if r.1 then (r.2, .ok name)
  else (r.2, .error (wrap500 (.httpException 404
    "\x7b\"error\": \"Project not found\"\x7d")))

/-- Response model `ProjectInfo` is imported by `app/main.py` but absent from
`app/models.py`; modelled from the spec and from its construction in
`get_project` (app/main.py lines 225-232): the project configuration
including `sandboxed`, plus document/metadata counts. -/
structure ProjectInfo where
  name : Option String
  embeddings : Option String
  llm : Option String
  system : Option String
  sandboxed : Option String
  documents : Nat
  metadatas : Nat
deriving Repr, DecidableEq

/-- Handler `get_project` (app/main.py lines 219-239): builds a `ProjectInfo` from
`project.model`; each `project.model.<attr>` read goes through pydantic
attribute lookup (`ProjectModel.getattr`); any exception — `findProject`
returning `None`, or the `AttributeError` for an attribute `ProjectModel`
does not declare — is caught and surfaced as `HTTPException(404, ...)`. -/
def get_project (st : AppState) (pname : String) : Except Exc ProjectInfo :=
  match findProject st pname with
  | none => .error (.httpException 404 "AttributeError: NoneType")
  | some proj =>
    match proj.getattr "name", proj.getattr "embeddings", proj.getattr "llm",
        proj.getattr "system", proj.getattr "sandboxed" with
    | some n, some e, some l, some s, some sb =>
      .ok ⟨n, e, l, s, sb, (getIndex st pname).length, (getIndex st pname).length⟩
    | _, _, _, _, _ =>
      .error (.httpException 404 "AttributeError: sandboxed")

/-- Handler `ingest_url` (app/main.py lines 344-371): dedup check querying the
collection by `source`, then load, keyword extraction, `IndexDocuments`,
`persist`.  The handler returns the resulting state next to the response: an
exception leaves every mutation made before it in place.  A `findProject`
miss makes `project.db` raise on `None`, caught by the blanket handler. -/
def ingest_url (st : AppState) (pname url : String) (orc : IngestOracle) :
    AppState × Except Exc Nat :=
  match findProject st pname with
  | none => (st, .error (wrap500 (.exception "AttributeError: NoneType")))
  | some _ =>
    let idx := getIndex st pname
    if 0 < (getBySource idx url).length then
      (st, .error (wrap500 (.exception "URL already ingested. Delete first.")))
    else
      match orc.load with
      | .error e => (st, .error (wrap500 e))
      | .ok documents =>
        match orc.extract documents with
        | .error e => (st, .error (wrap500 e))
        | .ok enriched =>
          let r := IndexDocuments idx enriched
          (setIndex st pname r.1, .ok r.2.length)

/-- Handler `ingest_file` (app/main.py lines 374-417): writes the upload to
`UPLOADS_PATH/<project.model.name>/<filename>` on disk first, then resolves
a loader by extension (`FindFileLoader`), loads, extracts keywords and
indexes.  Unlike `ingest_url`, there is NO dedup check against the index. -/
def ingest_file (st : AppState) (_uploads pname fname : String) (orc : IngestOracle) :
    AppState × Except Exc Nat :=
  match findProject st pname with
  | none => (st, .error (wrap500 (.exception "AttributeError: NoneType")))
  | some proj =>
    let st1 := { st with files :=
      if st.files.contains (proj.name, fname) then st.files
      else st.files ++ [(proj.name, fname)] }
    match orc.load with
    | .error e => (st1, .error (wrap500 e))
    | .ok documents =>
      match orc.extract documents with
      | .error e => (st1, .error (wrap500 e))
      | .ok enriched =>
        let idx := getIndex st1 pname
        let r := IndexDocuments idx enriched
        (setIndex st1 pname r.1, .ok r.2.length)

/-- Predicate `metadata["source"].startswith(('http://', 'https://'))`. -/
def startsWithChars : List Char → List Char → Bool
  | [], _ => true
  | _ :: _, [] => false
  | p :: ps, c :: cs => p == c && startsWithChars ps cs

def isWebSource (s : String) : Bool :=
  startsWithChars "http://".toList s.toList || startsWithChars "https://".toList s.toList

def listUrlsLoop : List Chunk → List String → List String
  | [], urls => urls
  | c :: rest, urls =>
    if isWebSource c.source && !(urls.contains c.source) then
      listUrlsLoop rest (urls ++ [c.source])
    else listUrlsLoop rest urls

/-- Handler `list_urls` (app/main.py lines 420-439): iterates the collection's
metadatas, collecting each source that starts with `http://` or `https://`
and is not yet collected. -/
def list_urls (idx : EmbIndex) : List String := listUrlsLoop idx []

/-- Handler `list_files` (app/main.py lines 442-458): enumerates the project's
upload DIRECTORY on disk (`os.listdir`), not the index; a missing directory
yields the `'error'` dict, modelled as `.error` (in the flat disk model a
project directory is observable when it holds a file). -/
def list_files (st : AppState) (pname : String) : Except String (List String) :=
  if st.files.any (fun f => f.1 == pname) then
    .ok ((st.files.filter (fun f => f.1 == pname)).map (fun f => f.2))
  else .error ("Project " ++ pname ++ " not found")

/-- Handler `delete_url` (app/main.py lines 461-475): no try/except wrapper;
base64-decodes the `url` path parameter, queries the collection ids whose
`source` equals the decoded URL, deletes them, and reports the count. -/
def delete_url (st : AppState) (pname urlB64 : String) :
    AppState × Except Exc Nat :=
  match findProject st pname with
  | none => (st, .error (.exception "AttributeError: NoneType"))
  | some _ =>
    match b64decodeStr urlB64 with
    | none => (st, .error (.exception "binascii.Error"))
    | some src =>
      let idx := getIndex st pname
      let ids := (getBySource idx src).map (fun c => c.id)
      if 0 < ids.length then
        (setIndex st pname (idx.filter (fun c => !(ids.contains c.id))), .ok ids.length)
      else (st, .ok ids.length)

/-- Handler `delete_file` (app/main.py lines 478-509): no try/except wrapper;
base64-decodes the `fileName` path parameter, deletes the collection ids
whose `source` equals `UPLOADS_PATH/<project.model.name>/<decoded>`, and only
afterwards checks that the file exists on disk — raising
`HTTPException(404, ...File ... not found...)` when it does not, the chunk
deletion having already happened.  When the file exists it is removed and
the deleted-chunk count is returned. -/
def delete_file (st : AppState) (uploads pname fnameB64 : String) :
    AppState × Except Exc Nat :=
  match findProject st pname with
  | none => (st, .error (.exception "AttributeError: NoneType"))
  | some proj =>
    match b64decodeStr fnameB64 with
    | none => (st, .error (.exception "binascii.Error"))
    | some fname =>
      let src := pathJoin (pathJoin uploads proj.name) fname
      let idx := getIndex st pname
      let ids := (getBySource idx src).map (fun c => c.id)
      let st1 :=
        if 0 < ids.length then
          setIndex st pname (idx.filter (fun c => !(ids.contains c.id)))
        else st
      if st1.files.contains (proj.name, fname) then
        ({ st1 with files := st1.files.filter (fun f => !(f == (proj.name, fname))) },
          .ok ids.length)
      else
        (st1, .error (.httpException 404 "File not found"))

/-! ## Question answering -/

/-- Python truthiness of an optional string (`None` and `""` are falsy):
`app/main.py` line 520 branches on `input.system or project.model.system`. -/
def truthy : Option String → Bool
  | none => false
  | some s => !(s == "")

/-- Retrieval and generation collaborators of one answering run: the
retrieved top-k chunks and the LLM invocation (persona, question ↦ answer). -/
structure QAOracle where
  retrieve : List Chunk
  generate : Option String → String → String

/-- Modelled from the spec: `brain.questionContext` (missing `app/brain.py`),
the "question-with-context" mode of the Retrieval-Answering Engine.
Effective persona = call-supplied `system` override if present, else the
Project's configured `system` (spec §4.4 step 1), bound into the prompt. -/
def brainQuestionContext (proj : ProjectModel) (input : QuestionModel) (orc : QAOracle) :
    String × List Chunk :=
  let persona := if truthy input.system then input.system else proj.system
  (orc.generate persona input.question, orc.retrieve)

/-- Modelled from the spec: `brain.question` (missing `app/brain.py`), plain
"question" mode running with the provider default persona (spec §4.4). -/
def brainQuestion (_proj : ProjectModel) (input : QuestionModel) (orc : QAOracle) :
    String × List Chunk :=
  (orc.generate none input.question, orc.retrieve)

/-- One entry of the `sources` array of a question response
(app/main.py lines 522-524). -/
structure SourceItem where
  content : String
  keywords : List String
  source : String
deriving Repr, DecidableEq

/-- The question response (app/main.py lines 525-529 / 535-539); the Python
dict key `type` is rendered as field `rtype`. -/
structure QuestionResponse where
  question : String
  answer : String
  sources : List SourceItem
  rtype : String
deriving Repr, DecidableEq

/-- Handler `question_project` (app/main.py lines 512-544): question-with-context
mode (type `"questioncontext"`) when `input.system or project.model.system`
is truthy, else plain question mode (type `"question"`). -/
def question_project (st : AppState) (pname : String) (input : QuestionModel)
    (orc : QAOracle) : Except Exc QuestionResponse :=
  match findProject st pname with
  | none => .error (wrap500 (.exception "AttributeError: NoneType"))
  | some proj =>
    if truthy input.system || truthy proj.system then
      let r := brainQuestionContext proj input orc
      .ok ⟨input.question, r.1,
        r.2.map (fun d => ⟨d.content, d.keywords, d.source⟩), "questioncontext"⟩
    else
      let r := brainQuestion proj input orc
      .ok ⟨input.question, r.1,
        r.2.map (fun d => ⟨d.content, d.keywords, d.source⟩), "question"⟩

/-! ## Shared example data -/

def stEmpty : AppState := ⟨[], [], [], []⟩

def pmDocs : ProjectModel := ⟨"docs", some "e1", some "l1", none⟩

def chunkUrl : Chunk := ⟨1, "http://a", "hello", ["k"]⟩

def chunkFile : Chunk := ⟨2, "/uploads/docs/a.txt", "x", ["k"]⟩

def stBoth : AppState :=
  ⟨[pmDocs], [("docs", [chunkUrl, chunkFile])], [("alice", "docs")], [("docs", "a.txt")]⟩

/-! ## Helper lemmas -/

theorem findProject_after_create (st : AppState) (pm : ProjectModel)
    (h : findProject st pm.name = none) :
    findProject (brainCreateProject st pm) pm.name = some pm := by
  simp only [findProject, brainCreateProject] at *
  rw [List.find?_append, h]
  simp

theorem create_project_rejects (st : AppState) (user : String) (pm : ProjectModel)
    (p : ProjectModel) (h : findProject st pm.name = some p) :
    create_project st user pm =
      (st, .error (wrap500 (.httpException 403
        "\x7b\"error\": \"Project already exists\"\x7d"))) := by
  simp [create_project, h]

theorem lookupIdx_setEntry_self (l : List (String × EmbIndex)) (p : String)
    (idx : EmbIndex) : lookupIdx (setEntry l p idx) p = idx := by
  induction l with
  | nil => simp [setEntry, lookupIdx]
  | cons e rest ih =>
    by_cases h : (e.1 == p) = true
    · simp [setEntry, lookupIdx, h]
    · simp only [setEntry, lookupIdx, h]
      simpa [h] using ih

/-! ## Claim C2 -/

/-- Claim C2: calling `create_project` twice with the same project name
fails the second time — the duplicate is rejected (`HTTPException(403,
"Project already exists")`, re-wrapped to a 500 by the blanket handler, see
C3) — and the failing call alters no state: no project metadata, no index,
no user-project association. -/
theorem C2_create_duplicate (st : AppState) (user1 user2 : String)
    (pm : ProjectModel) (h : findProject st pm.name = none) :
    (create_project ((create_project st user1 pm).1) user2 pm).1
        = (create_project st user1 pm).1 ∧
    (create_project ((create_project st user1 pm).1) user2 pm).2
        = .error (wrap500 (.httpException 403
            "\x7b\"error\": \"Project already exists\"\x7d")) := by
  have h2 : findProject ((create_project st user1 pm).1) pm.name = some pm := by
    have hc := findProject_after_create st pm h
    simp only [create_project, h]
    simpa [findProject, brainCreateProject] using hc
  have key := create_project_rejects ((create_project st user1 pm).1) user2 pm pm h2
  exact ⟨by rw [key], by rw [key]⟩

theorem C2_witness :
    findProject stEmpty pmDocs.name = none ∧
    ((create_project ((create_project stEmpty "alice" pmDocs).1) "bob" pmDocs).1
        = (create_project stEmpty "alice" pmDocs).1 ∧
      (create_project ((create_project stEmpty "alice" pmDocs).1) "bob" pmDocs).2
        = .error (wrap500 (.httpException 403
            "\x7b\"error\": \"Project already exists\"\x7d"))) :=
  ⟨rfl, C2_create_duplicate stEmpty "alice" "bob" pmDocs rfl⟩

/-! ## Claim C3 -/

/-- Claim C3 (code bug): the specific signals never reach the caller.  Every
handler raises its own `HTTPException(404/403, ...)` inside the `try` body,
and the blanket `except Exception` (which also catches `HTTPException`)
re-raises everything as a generic 500.  Concretely: deleting and editing the
nonexistent project `"ghost"` and creating a duplicate of `"docs"` all
surface status 500; so does re-ingesting an already-ingested URL. -/
theorem C3_signals_swallowed :
    respStatus (delete_project stEmpty "ghost").2 = some 500 ∧
    respStatus (edit_project stEmpty "ghost" ⟨none, none, none⟩).2 = some 500 ∧
    respStatus (create_project stBoth "alice" pmDocs).2 = some 500 ∧
    respStatus (ingest_url stBoth "docs" "http://a"
        ⟨.ok [], fun ds => .ok ds⟩).2 = some 500 := by
  refine ⟨rfl, rfl, ?_, ?_⟩ <;> decide

/-! ## Claim C4 -/

/-- Claim C4: for every name with no persisted Project, `findProject`
returns `None` — a total lookup that never raises for the not-found case;
absence is observed only through the `None` return value (which
`create_project`, app/main.py line 276, branches on). -/
theorem C4_findProject_absent (st : AppState) (name : String)
    (h : ∀ p ∈ st.projects, p.name ≠ name) : findProject st name = none := by
  rw [findProject, List.find?_eq_none]
  intro p hp
  simpa using h p hp

theorem C4_witness :
    (∀ p ∈ stEmpty.projects, p.name ≠ "ghost") ∧ findProject stEmpty "ghost" = none :=
  ⟨by decide, C4_findProject_absent stEmpty "ghost" (by decide)⟩

/-! ## Claim C8 -/

/-- Claim C8 (code bug): `ProjectModel` (app/models.py lines 26-30) declares
only `name`, `embeddings`, `llm`, `system` — there is no `sandboxed`
attribute on any instance, so the read `project.model.sandboxed` in
`get_project` (app/main.py line 230) can never resolve and `get_project`
fails (as a 404) for every project, existing or not.  (`app/main.py` also
imports `ProjectInfo`, `ProjectModelUpdate`, `URLIngestModel`, ... from
`app.models`, none of which `app/models.py` defines.) -/
theorem C8_sandboxed_missing :
    (∀ m : ProjectModel, m.getattr "sandboxed" = none) ∧
    (∀ (st : AppState) (pname : String), isErr (get_project st pname) = true) := by
  constructor
  · intro m
    rfl
  · intro st pname
    cases h : findProject st pname with
    | none => simp [get_project, h, isErr]
    | some proj => simp [get_project, h, ProjectModel.getattr, isErr]

/-! ## Claim C5 -/

/-- Claim C5: an ingestion run (URL or file upload) that fails before the
indexing step — loader resolution failure, load failure, or
keyword-extraction failure — leaves the project's index unchanged: no chunk
is upserted and no persist happens before the single batch `IndexDocuments`
+ `persist` at the end of the pipeline.  (For file uploads the raw file has
already been written to the upload directory, but the index is untouched.) -/
theorem C5_failed_run_leaves_index (st : AppState) (uploads pname url fname : String)
    (orc : IngestOracle) (proj : ProjectModel) (e : Exc)
    (h : findProject st pname = some proj)
    (hfail : orc.load = .error e ∨
      ∃ docs, orc.load = .ok docs ∧ orc.extract docs = .error e) :
    (ingest_url st pname url orc).1 = st ∧
    isErr (ingest_url st pname url orc).2 = true ∧
    getIndex (ingest_file st uploads pname fname orc).1 pname = getIndex st pname ∧
    isErr (ingest_file st uploads pname fname orc).2 = true := by
  have hurl : (ingest_url st pname url orc).1 = st ∧
      isErr (ingest_url st pname url orc).2 = true := by
    simp only [ingest_url, h]
    by_cases hd : 0 < (getBySource (getIndex st pname) url).length
    · simp [hd, isErr]
    · rcases hfail with hl | ⟨docs, hl, hx⟩
      · simp [hd, hl, isErr]
      · simp [hd, hl, hx, isErr]
  have hfile : getIndex (ingest_file st uploads pname fname orc).1 pname
        = getIndex st pname ∧
      isErr (ingest_file st uploads pname fname orc).2 = true := by
    simp only [ingest_file, h]
    rcases hfail with hl | ⟨docs, hl, hx⟩
    · simp [hl, isErr, getIndex]
    · simp [hl, hx, isErr, getIndex]
  exact ⟨hurl.1, hurl.2, hfile.1, hfile.2⟩

theorem C5_witness :
    (findProject stBoth "docs" = some pmDocs ∧
      (IngestOracle.mk (.error (.exception "net"))
          (fun ds => .ok ds)).load = .error (.exception "net")) ∧
    ((ingest_url stBoth "docs" "http://b"
        ⟨.error (.exception "net"), fun ds => .ok ds⟩).1 = stBoth ∧
      isErr (ingest_url stBoth "docs" "http://b"
        ⟨.error (.exception "net"), fun ds => .ok ds⟩).2 = true ∧
      getIndex (ingest_file stBoth "/uploads" "docs" "b.txt"
        ⟨.error (.exception "net"), fun ds => .ok ds⟩).1 "docs" = getIndex stBoth "docs" ∧
      isErr (ingest_file stBoth "/uploads" "docs" "b.txt"
        ⟨.error (.exception "net"), fun ds => .ok ds⟩).2 = true) :=
  ⟨⟨rfl, rfl⟩,
    C5_failed_run_leaves_index stBoth "/uploads" "docs" "http://b" "b.txt"
      ⟨.error (.exception "net"), fun ds => .ok ds⟩ pmDocs (.exception "net")
      rfl (Or.inl rfl)⟩

/-! ## Claim C6 -/

/-- Claim C6: a question request answers in question-with-context mode
(response type `"questioncontext"`) exactly when the call supplies a system
override or the project has a configured system persona (Python truthiness:
a present, non-empty string), and in plain question mode (type `"question"`)
otherwise; when a call-supplied override is present it takes precedence over
the project's configured system as the persona bound into generation. -/
theorem C6_question_mode (st : AppState) (pname : String) (input : QuestionModel)
    (orc : QAOracle) (proj : ProjectModel)
    (h : findProject st pname = some proj) :
    ∃ resp, question_project st pname input orc = .ok resp ∧
      (resp.rtype = "questioncontext"
        ↔ (truthy input.system || truthy proj.system) = true) ∧
      (resp.rtype = "question"
        ↔ (truthy input.system || truthy proj.system) = false) ∧
      (truthy input.system = true →
        resp.answer = orc.generate input.system input.question) ∧
      (truthy input.system = false → truthy proj.system = true →
        resp.answer = orc.generate proj.system input.question) := by
  by_cases hc : (truthy input.system || truthy proj.system) = true
  · refine ⟨⟨input.question, (brainQuestionContext proj input orc).1,
      (brainQuestionContext proj input orc).2.map
        (fun d => ⟨d.content, d.keywords, d.source⟩), "questioncontext"⟩,
      ?_, ?_, ?_, ?_, ?_⟩
    · simp [question_project, h, hc]
    · simp [hc]
    · simp [hc]
    · intro hi
      simp [brainQuestionContext, hi]
    · intro hi hp
      simp [brainQuestionContext, hi]
  · refine ⟨⟨input.question, (brainQuestion proj input orc).1,
      (brainQuestion proj input orc).2.map
        (fun d => ⟨d.content, d.keywords, d.source⟩), "question"⟩,
      ?_, ?_, ?_, ?_, ?_⟩
    · simp [question_project, h, hc]
    · simp [hc]
    · simp [hc]
    · intro hi
      simp [hi] at hc
    · intro hi hp
      simp [hi, hp] at hc

def pmSys : ProjectModel := ⟨"docs", some "e1", some "l1", some "projpersona"⟩

def stSys : AppState := ⟨[pmSys], [("docs", [chunkUrl])], [("alice", "docs")], []⟩

theorem C6_witness :
    findProject stSys "docs" = some pmSys ∧
    ∃ resp, question_project stSys "docs" ⟨"q?", none, some "callpersona"⟩
        ⟨[chunkUrl], fun p q => (p.getD "d") ++ "|" ++ q⟩ = .ok resp ∧
      (resp.rtype = "questioncontext"
        ↔ (truthy (some "callpersona") || truthy pmSys.system) = true) ∧
      (resp.rtype = "question"
        ↔ (truthy (some "callpersona") || truthy pmSys.system) = false) ∧
      (truthy (some "callpersona") = true →
        resp.answer = (QAOracle.mk [chunkUrl]
          (fun p q => (p.getD "d") ++ "|" ++ q)).generate (some "callpersona") "q?") ∧
      (truthy (some "callpersona") = false → truthy pmSys.system = true →
        resp.answer = (QAOracle.mk [chunkUrl]
          (fun p q => (p.getD "d") ++ "|" ++ q)).generate pmSys.system "q?") :=
  ⟨rfl, C6_question_mode stSys "docs" ⟨"q?", none, some "callpersona"⟩
    ⟨[chunkUrl], fun p q => (p.getD "d") ++ "|" ++ q⟩ pmSys rfl⟩

/-! ## More helper lemmas -/

theorem containsIffMem {α : Type} [BEq α] [LawfulBEq α] (l : List α) (a : α) :
    l.contains a = true ↔ a ∈ l := by
  rw [List.contains_eq_any_beq]
  simp

theorem getIndex_setIndex (st : AppState) (p : String) (idx : EmbIndex) :
    getIndex (setIndex st p idx) p = idx :=
  lookupIdx_setEntry_self st.indexes p idx

theorem upsertDocs_sources (docs : List PDoc) : ∀ (idx : EmbIndex) (n : Nat),
    ∃ newChunks, (upsertDocs idx n docs).1 = idx ++ newChunks ∧
      newChunks.map Chunk.source = docs.map PDoc.source := by
  induction docs with
  | nil => exact fun idx n => ⟨[], by simp [upsertDocs], rfl⟩
  | cons d rest ih =>
    intro idx n
    obtain ⟨nc, h1, h2⟩ := ih (idx ++ [⟨n, d.source, d.content, d.keywords⟩]) (n + 1)
    refine ⟨⟨n, d.source, d.content, d.keywords⟩ :: nc, ?_, ?_⟩
    · simp only [upsertDocs, h1]
      simp
    · simp [h2]

theorem upsertDocs_ids_length (docs : List PDoc) : ∀ (idx : EmbIndex) (n : Nat),
    (upsertDocs idx n docs).2.length = docs.length := by
  induction docs with
  | nil => exact fun idx n => rfl
  | cons d rest ih =>
    intro idx n
    simp [upsertDocs, ih]

theorem getBySource_after_delete (idx : EmbIndex) (src : String) :
    getBySource (idx.filter (fun c =>
      !(((getBySource idx src).map (fun c => c.id)).contains c.id))) src = [] := by
  unfold getBySource
  rw [List.filter_filter, List.filter_eq_nil_iff]
  intro c hc hcontra
  rw [Bool.and_eq_true] at hcontra
  obtain ⟨hsrc, hnid⟩ := hcontra
  have hidmem : c.id ∈ (idx.filter (fun c => c.source == src)).map (fun c => c.id) :=
    List.mem_map.mpr ⟨c, List.mem_filter.mpr ⟨hc, hsrc⟩, rfl⟩
  rw [(containsIffMem _ _).mpr hidmem] at hnid
  simp at hnid

theorem filter_ids_eq_filter_source (idx : EmbIndex) (s : String)
    (hids : (idx.map (fun c => c.id)).Nodup) :
    idx.filter (fun c =>
        !(((getBySource idx s).map (fun c => c.id)).contains c.id))
      = idx.filter (fun c => !(c.source == s)) := by
  apply List.filter_congr
  intro c hc
  congr 1
  by_cases hs : (c.source == s) = true
  · rw [hs]
    exact (containsIffMem _ _).mpr
      (List.mem_map.mpr ⟨c, List.mem_filter.mpr ⟨hc, hs⟩, rfl⟩)
  · have hs' : (c.source == s) = false := by simpa using hs
    rw [hs']
    cases hcon : ((getBySource idx s).map (fun c => c.id)).contains c.id with
    | false => rfl
    | true =>
      exfalso
      obtain ⟨c', hc', hid⟩ := List.mem_map.mp ((containsIffMem _ _).mp hcon)
      have hc'mem := List.mem_filter.mp hc'
      have hcc : c' = c := List.inj_on_of_nodup_map hids hc'mem.1 hc hid
      rw [hcc] at hc'mem
      rw [hc'mem.2] at hs'
      cases hs'

theorem mem_listUrlsLoop (l : List Chunk) : ∀ (acc : List String) (s : String),
    s ∈ listUrlsLoop l acc ↔
      s ∈ acc ∨ (isWebSource s = true ∧ ∃ c ∈ l, c.source = s) := by
  induction l with
  | nil =>
    intro acc s
    simp [listUrlsLoop]
  | cons c rest ih =>
    intro acc s
    by_cases hb : (isWebSource c.source && !(acc.contains c.source)) = true
    · simp only [listUrlsLoop]
      rw [if_pos hb, ih]
      have hb' := hb
      rw [Bool.and_eq_true] at hb'
      have hw : isWebSource c.source = true := hb'.1
      constructor
      · rintro (hmem | ⟨hws, c', hc', rfl⟩)
        · rcases List.mem_append.mp hmem with ha | hs
          · exact Or.inl ha
          · have hcs : s = c.source := by simpa using hs
            exact Or.inr ⟨by rw [hcs]; exact hw, c, List.mem_cons_self c rest, hcs.symm⟩
        · exact Or.inr ⟨hws, c', List.mem_cons_of_mem c hc', rfl⟩
      · rintro (ha | ⟨hws, c', hc', rfl⟩)
        · exact Or.inl (List.mem_append.mpr (Or.inl ha))
        · rcases List.mem_cons.mp hc' with heq | hc''
          · rw [heq]
            exact Or.inl (List.mem_append.mpr (Or.inr (by simp)))
          · exact Or.inr ⟨hws, c', hc'', rfl⟩
    · simp only [listUrlsLoop]
      rw [if_neg hb, ih]
      have hcont : isWebSource c.source = true → acc.contains c.source = true := by
        intro hws
        cases hy : acc.contains c.source with
        | false =>
          exact absurd (by rw [Bool.and_eq_true]; exact ⟨hws, by rw [hy]; rfl⟩) hb
        | true => rfl
      constructor
      · rintro (ha | ⟨hws, c', hc', rfl⟩)
        · exact Or.inl ha
        · exact Or.inr ⟨hws, c', List.mem_cons_of_mem c hc', rfl⟩
      · rintro (ha | ⟨hws, c', hc', rfl⟩)
        · exact Or.inl ha
        · rcases List.mem_cons.mp hc' with heq | hc''
          · rw [heq]
            exact Or.inl ((containsIffMem _ _).mp (hcont (by rw [← heq]; exact hws)))
          · exact Or.inr ⟨hws, c', hc'', rfl⟩

theorem nodup_listUrlsLoop (l : List Chunk) : ∀ acc : List String,
    acc.Nodup → (listUrlsLoop l acc).Nodup := by
  induction l with
  | nil =>
    intro acc h
    simpa [listUrlsLoop] using h
  | cons c rest ih =>
    intro acc h
    by_cases hb : (isWebSource c.source && !(acc.contains c.source)) = true
    · simp only [listUrlsLoop]
      rw [if_pos hb]
      apply ih
      have hb' := hb
      rw [Bool.and_eq_true] at hb'
      have hnc : acc.contains c.source = false := by simpa using hb'.2
      have hnotmem : c.source ∉ acc := by
        intro hmem
        rw [(containsIffMem _ _).mpr hmem] at hnc
        cases hnc
      rw [List.nodup_append_comm, List.singleton_append, List.nodup_cons]
      exact ⟨hnotmem, h⟩
    · simp only [listUrlsLoop]
      rw [if_neg hb]
      exact ih acc h

/-! ## Claim C1 -/

def orcUp : IngestOracle :=
  ⟨.ok [⟨"/uploads/docs/a.txt", "x2", []⟩],
    fun ds => .ok (ds.map (fun d => { d with keywords := ["kw"] }))⟩

/-- Claim C1 counterexample: the claim states that ingesting a source whose
chunks already exist fails with the already-ingested rejection for BOTH URL
and file-upload ingestion.  On `stBoth`, whose index holds a chunk with
source `/uploads/docs/a.txt`, re-uploading `a.txt` does not fail: it
succeeds and reports one newly ingested document — `ingest_file`
(app/main.py lines 374-417) performs no dedup check. -/
theorem C1_counterexample :
    0 < (getBySource (getIndex stBoth "docs")
      (pathJoin (pathJoin "/uploads" "docs") "a.txt")).length ∧
    (ingest_file stBoth "/uploads" "docs" "a.txt" orcUp).2 = .ok 1 :=
  ⟨by decide, rfl⟩

/-- Claim C1, amended: only URL ingestion performs the dedup check — when a
chunk already exists for the URL, `ingest_url` fails (already-ingested
rejection, re-wrapped to a 500 by the blanket handler) and the state,
including the chunks stored for that source, is unchanged.  File-upload
ingestion performs no dedup check: even when chunks exist for the
destination path, a successful load and extraction make `ingest_file`
succeed and append freshly indexed chunks. -/
theorem C1_dedup_url_only (st : AppState) (uploads pname url fname : String)
    (orc : IngestOracle) (proj : ProjectModel) (docs docs2 : List PDoc)
    (h : findProject st pname = some proj)
    (hurl : 0 < (getBySource (getIndex st pname) url).length)
    (_hfile : 0 < (getBySource (getIndex st pname)
      (pathJoin (pathJoin uploads proj.name) fname)).length)
    (hload : orc.load = .ok docs) (hex : orc.extract docs = .ok docs2) :
    ingest_url st pname url orc =
      (st, .error (wrap500 (.exception "URL already ingested. Delete first."))) ∧
    (ingest_file st uploads pname fname orc).2 = .ok docs2.length ∧
    ∃ newChunks,
      getIndex (ingest_file st uploads pname fname orc).1 pname
        = getIndex st pname ++ newChunks ∧
      newChunks.map Chunk.source = docs2.map PDoc.source := by
  refine ⟨?_, ?_, ?_⟩
  · simp [ingest_url, h, hurl]
  · simp [ingest_file, h, hload, hex, IndexDocuments, upsertDocs_ids_length]
  · have hset : getIndex (ingest_file st uploads pname fname orc).1 pname
        = (IndexDocuments (getIndex st pname) docs2).1 := by
      simp only [ingest_file, h, hload, hex]
      exact getIndex_setIndex _ pname _
    obtain ⟨nc, h1, h2⟩ :=
      upsertDocs_sources docs2 (getIndex st pname) (freshId (getIndex st pname))
    exact ⟨nc, by rw [hset]; exact h1, h2⟩

theorem C1_witness :
    (findProject stBoth "docs" = some pmDocs ∧
      0 < (getBySource (getIndex stBoth "docs") "http://a").length ∧
      0 < (getBySource (getIndex stBoth "docs")
        (pathJoin (pathJoin "/uploads" pmDocs.name) "a.txt")).length ∧
      orcUp.load = .ok [⟨"/uploads/docs/a.txt", "x2", []⟩] ∧
      orcUp.extract [⟨"/uploads/docs/a.txt", "x2", []⟩]
        = .ok [⟨"/uploads/docs/a.txt", "x2", ["kw"]⟩]) ∧
    (ingest_url stBoth "docs" "http://a" orcUp =
      (stBoth, .error (wrap500 (.exception "URL already ingested. Delete first."))) ∧
    (ingest_file stBoth "/uploads" "docs" "a.txt" orcUp).2
        = .ok ([(⟨"/uploads/docs/a.txt", "x2", ["kw"]⟩ : PDoc)]).length ∧
    ∃ newChunks,
      getIndex (ingest_file stBoth "/uploads" "docs" "a.txt" orcUp).1 "docs"
        = getIndex stBoth "docs" ++ newChunks ∧
      newChunks.map Chunk.source
        = [(⟨"/uploads/docs/a.txt", "x2", ["kw"]⟩ : PDoc)].map PDoc.source) :=
  ⟨⟨rfl, by decide, by decide, rfl, rfl⟩,
    C1_dedup_url_only stBoth "/uploads" "docs" "http://a" "a.txt" orcUp pmDocs
      [⟨"/uploads/docs/a.txt", "x2", []⟩] [⟨"/uploads/docs/a.txt", "x2", ["kw"]⟩]
      rfl (by decide) (by decide) rfl rfl⟩

/-! ## Claim C7 -/

def idxFileOnly : EmbIndex := [⟨1, "/uploads/docs/a.txt", "x", ["k"]⟩]

def stNoDisk : AppState := ⟨[pmDocs], [("docs", idxFileOnly)], [("alice", "docs")], []⟩

/-- Claim C7 counterexample: the claim states that enumerating a project's
ingested sources returns every stored chunk's source, URL or uploaded-file
path, exactly once.  With one stored chunk whose source is the uploaded-file
path `/uploads/docs/a.txt`, `list_urls` filters it out (it is not an
http/https source) and `list_files` does not read the index at all — it
lists the on-disk upload directory, here empty — so the stored source
appears in neither enumeration. -/
theorem C7_counterexample :
    idxFileOnly.map Chunk.source = ["/uploads/docs/a.txt"] ∧
    list_urls idxFileOnly = [] ∧
    list_files stNoDisk "docs" = .error "Project docs not found" :=
  ⟨rfl, rfl, rfl⟩

/-- Claim C7, amended: `list_urls` returns exactly the distinct URL sources
— those starting with `http://` or `https://` — across all stored chunks,
each appearing exactly once; uploaded-file sources are not enumerated from
the index (`list_files` lists the on-disk upload directory instead). -/
theorem C7_list_urls_distinct (idx : EmbIndex) :
    (list_urls idx).Nodup ∧
    ∀ s, s ∈ list_urls idx ↔ (isWebSource s = true ∧ ∃ c ∈ idx, c.source = s) := by
  constructor
  · exact nodup_listUrlsLoop idx [] List.nodup_nil
  · intro s
    rw [list_urls, mem_listUrlsLoop]
    simp

/-! ## Claim C9 -/

/-- Claim C9: `delete_file` deletes every index chunk whose source is the
file's path under the project's upload directory BEFORE checking that the
file exists on disk; when the file is absent the call fails with 404 after
the chunk deletion has already taken effect, so the index is mutated even
though the operation reports failure. -/
theorem C9_delete_file_order (st : AppState) (uploads pname fnameB64 fname : String)
    (proj : ProjectModel)
    (h : findProject st pname = some proj)
    (hdec : b64decodeStr fnameB64 = some fname)
    (habs : st.files.contains (proj.name, fname) = false)
    (hchunks : 0 < (getBySource (getIndex st pname)
        (pathJoin (pathJoin uploads proj.name) fname)).length) :
    (delete_file st uploads pname fnameB64).2
        = .error (.httpException 404 "File not found") ∧
    getBySource (getIndex (delete_file st uploads pname fnameB64).1 pname)
        (pathJoin (pathJoin uploads proj.name) fname) = [] ∧
    getIndex (delete_file st uploads pname fnameB64).1 pname ≠ getIndex st pname := by
  have hlen : 0 < ((getBySource (getIndex st pname)
      (pathJoin (pathJoin uploads proj.name) fname)).map (fun c => c.id)).length := by
    simpa using hchunks
  have habs' : (proj.name, fname) ∉ st.files := by
    intro hm
    rw [(containsIffMem _ _).mpr hm] at habs
    cases habs
  have hred : delete_file st uploads pname fnameB64 =
      (setIndex st pname ((getIndex st pname).filter (fun c =>
          !(((getBySource (getIndex st pname)
              (pathJoin (pathJoin uploads proj.name) fname)).map
            (fun c => c.id)).contains c.id))),
        .error (.httpException 404 "File not found")) := by
    simp only [delete_file, h, hdec]
    rw [if_pos hlen]
    simp [setIndex, habs']
  have hfst : (delete_file st uploads pname fnameB64).1
      = setIndex st pname ((getIndex st pname).filter (fun c =>
          !(((getBySource (getIndex st pname)
              (pathJoin (pathJoin uploads proj.name) fname)).map
            (fun c => c.id)).contains c.id))) := by
    rw [hred]
  refine ⟨by rw [hred], ?_, ?_⟩
  · rw [hfst, getIndex_setIndex]
    exact getBySource_after_delete (getIndex st pname)
      (pathJoin (pathJoin uploads proj.name) fname)
  · intro heq
    have h2 : getBySource (getIndex st pname)
        (pathJoin (pathJoin uploads proj.name) fname) = [] := by
      rw [← heq, hfst, getIndex_setIndex]
      exact getBySource_after_delete (getIndex st pname)
        (pathJoin (pathJoin uploads proj.name) fname)
    rw [h2] at hchunks
    simp at hchunks

def stFileGone : AppState :=
  ⟨[pmDocs], [("docs", [chunkUrl, chunkFile])], [("alice", "docs")], []⟩

theorem C9_witness :
    (findProject stFileGone "docs" = some pmDocs ∧
      b64decodeStr "YS50eHQ=" = some "a.txt" ∧
      stFileGone.files.contains (pmDocs.name, "a.txt") = false ∧
      0 < (getBySource (getIndex stFileGone "docs")
        (pathJoin (pathJoin "/uploads" pmDocs.name) "a.txt")).length) ∧
    ((delete_file stFileGone "/uploads" "docs" "YS50eHQ=").2
        = .error (.httpException 404 "File not found") ∧
      getBySource (getIndex (delete_file stFileGone "/uploads" "docs" "YS50eHQ=").1 "docs")
        (pathJoin (pathJoin "/uploads" pmDocs.name) "a.txt") = [] ∧
      getIndex (delete_file stFileGone "/uploads" "docs" "YS50eHQ=").1 "docs"
        ≠ getIndex stFileGone "docs") :=
  ⟨⟨rfl, by decide, by decide, by decide⟩,
    C9_delete_file_order stFileGone "/uploads" "docs" "YS50eHQ=" "a.txt" pmDocs
      rfl (by decide) (by decide) (by decide)⟩

/-! ## Claim C10 -/

/-- Claim C10: the `url` parameter of `delete_url` and the `fileName`
parameter of `delete_file` are base64-decoded before any index lookup or
deletion: the chunks removed by `delete_url` are exactly those whose source
equals the DECODED parameter (the count reported is their number), and
`delete_file` removes exactly the chunks whose source is
`UPLOADS_PATH/<project>/<decoded fileName>`. -/
theorem C10_params_base64 (st : AppState) (uploads pname urlB64 : String) (s : String)
    (proj : ProjectModel)
    (h : findProject st pname = some proj)
    (hdec : b64decodeStr urlB64 = some s)
    (hids : ((getIndex st pname).map (fun c => c.id)).Nodup) :
    getIndex (delete_url st pname urlB64).1 pname
      = (getIndex st pname).filter (fun c => !(c.source == s)) ∧
    (delete_url st pname urlB64).2 = .ok (getBySource (getIndex st pname) s).length ∧
    getIndex (delete_file st uploads pname urlB64).1 pname
      = (getIndex st pname).filter
          (fun c => !(c.source == pathJoin (pathJoin uploads proj.name) s)) := by
  have hmain : ∀ src : String,
      (getIndex st pname).filter (fun c =>
          !(((getBySource (getIndex st pname) src).map (fun c => c.id)).contains c.id))
        = (getIndex st pname).filter (fun c => !(c.source == src)) :=
    fun src => filter_ids_eq_filter_source (getIndex st pname) src hids
  have hempty : ∀ src : String,
      getBySource (getIndex st pname) src = [] →
      (getIndex st pname).filter (fun c => !(c.source == src)) = getIndex st pname := by
    intro src hz
    rw [List.filter_eq_self]
    intro c hc
    have hall := List.filter_eq_nil_iff.mp
      (show List.filter (fun c => c.source == src) (getIndex st pname) = [] from hz)
    simpa using hall c hc
  have hzero : ∀ src : String,
      ¬ 0 < ((getBySource (getIndex st pname) src).map (fun c => c.id)).length →
      getBySource (getIndex st pname) src = [] := by
    intro src hlen
    have h0 : (getBySource (getIndex st pname) src).length = 0 :=
      Nat.eq_zero_of_not_pos (by simpa using hlen)
    exact List.length_eq_zero.mp h0
  have hg : ∀ (b : Bool) (st1 : AppState) (fs : List (String × String)) (r : Nat),
      getIndex (if b = true
        then ({ st1 with files := fs }, (Except.ok r : Except Exc Nat))
        else (st1, .error (.httpException 404 "File not found"))).1 pname
      = getIndex st1 pname := by
    intro b st1 fs r
    cases b <;> rfl
  refine ⟨?_, ?_, ?_⟩
  · simp only [delete_url, h, hdec]
    by_cases hlen : 0 < ((getBySource (getIndex st pname) s).map (fun c => c.id)).length
    · rw [if_pos hlen, getIndex_setIndex]
      exact hmain s
    · rw [if_neg hlen]
      rw [hempty s (hzero s hlen)]
  · simp only [delete_url, h, hdec]
    by_cases hlen : 0 < ((getBySource (getIndex st pname) s).map (fun c => c.id)).length
    · rw [if_pos hlen]
      simp
    · rw [if_neg hlen]
      simp
  · simp only [delete_file, h, hdec]
    by_cases hlen : 0 < ((getBySource (getIndex st pname)
        (pathJoin (pathJoin uploads proj.name) s)).map (fun c => c.id)).length
    · rw [if_pos hlen]
      rw [hg, getIndex_setIndex]
      exact hmain (pathJoin (pathJoin uploads proj.name) s)
    · rw [if_neg hlen]
      rw [hg]
      rw [hempty _ (hzero _ hlen)]

theorem C10_witness :
    (findProject stBoth "docs" = some pmDocs ∧
      b64decodeStr "aHR0cDovL2E=" = some "http://a" ∧
      ((getIndex stBoth "docs").map (fun c => c.id)).Nodup) ∧
    (getIndex (delete_url stBoth "docs" "aHR0cDovL2E=").1 "docs"
      = (getIndex stBoth "docs").filter (fun c => !(c.source == "http://a")) ∧
    (delete_url stBoth "docs" "aHR0cDovL2E=").2
      = .ok (getBySource (getIndex stBoth "docs") "http://a").length ∧
    getIndex (delete_file stBoth "/uploads" "docs" "aHR0cDovL2E=").1 "docs"
      = (getIndex stBoth "docs").filter
          (fun c => !(c.source == pathJoin (pathJoin "/uploads" pmDocs.name) "http://a"))) :=
  ⟨⟨rfl, by decide, by decide⟩,
    C10_params_base64 stBoth "/uploads" "docs" "aHR0cDovL2E=" "http://a" pmDocs
      rfl (by decide) (by decide)⟩

end Restai
